import Mathlib

/-!
Shallow embedding of the simulated-annealing TSP core of this repository
(`Src/Q1b.py` and `Src/Q1_Optimization.py`), together with theorems that
settle the specification's claims about it.

Modelling conventions:
* Python floats are modelled as real numbers (`ℝ`).
* The ambient `random` module is modelled by explicit streams of draws
  passed to the engine: `mv : ℕ → ℕ × ℕ` gives the pair of positions
  sampled at step `k` and `ac : ℕ → ℝ` gives the uniform draw in `[0,1)`
  used by the acceptance test at step `k`; `random.shuffle` on the initial
  permutation is modelled by passing the shuffled permutation in.
* `random.sample(range(n), 2)` raises `ValueError` when `n < 2`; this is
  the only fallible operation reachable from the loop, and it is modelled
  by an explicit size check producing `SAError.valueError`.  The run
  results are instrumented with the number of executed loop iterations,
  the list of accept/reject decisions, and the error outcome, so that the
  claims about termination, traces and failure can be stated directly.
* Python list indexing `xs[i]` is modelled with `List.getD` (all indices
  arising in a run of the source are in range).
-/

noncomputable section

/-- `get_euclidean_dist` from `Q1b.py`: straight-line distance between two
city coordinates. -/
def get_euclidean_dist (c1 c2 : ℝ × ℝ) : ℝ :=
  Real.sqrt ((c1.1 - c2.1) ^ 2 + (c1.2 - c2.2) ^ 2)

/-- `calculate_tour_cost` from `Q1b.py`: total distance of the Hamiltonian
cycle, accumulating `get_euclidean_dist` over `i in range(len(route))` with
the wrap-around index `(i + 1) % len(route)`. -/
def calculate_tour_cost (route : List ℕ) (city_data : List (ℝ × ℝ)) : ℝ :=
  (List.range route.length).foldl
    (fun total i =>
      total + get_euclidean_dist (city_data.getD (route.getD i 0) (0, 0))
        (city_data.getD (route.getD ((i + 1) % route.length) 0) (0, 0))) 0

/-- `apply_2opt_move` from `Q1b.py`.  The call
`i, j = sorted(random.sample(range(len(route)), 2))` is modelled by passing
the two sampled positions `a b` in; `sorted` is the `min`/`max` below.  The
slice assignment `new_route[i:j+1] = reversed(new_route[i:j+1])` on the copy
`new_route = route[:]` is the splice below. -/
def apply_2opt_move (route : List ℕ) (a b : ℕ) : List ℕ :=
  let i := min a b
  let j := max a b
  route.take i ++ ((route.drop i).take (j + 1 - i)).reverse ++ route.drop (j + 1)

/-- The `ExponentialCooler` class of `Q1b.py` (constructor fields). -/
structure ExponentialCooler where
  t_start : ℝ
  alpha : ℝ

/-- `ExponentialCooler.get_temp` from `Q1b.py`: `T = T_initial * alpha^k`. -/
def ExponentialCooler.get_temp (c : ExponentialCooler) (k : ℕ) : ℝ :=
  c.t_start * c.alpha ^ k

/-- The `LinearCooler` class of `Q1b.py` (constructor fields). -/
structure LinearCooler where
  t_start : ℝ
  beta : ℝ

/-- `LinearCooler.get_temp` from `Q1b.py`:
`max(0.001, t_start - beta * k)`. -/
def LinearCooler.get_temp (c : LinearCooler) (k : ℕ) : ℝ :=
  max 0.001 (c.t_start - c.beta * k)

/-- The local search state of both annealing loops: `current_state` /
`current_cost` / `best_state` / `best_cost` in `Q1b.py`, `current_tour` /
`current_cost` / `best_tour` / `best_cost` in `Q1_Optimization.py`. -/
structure SAState where
  current : List ℕ
  current_cost : ℝ
  best : List ℕ
  best_cost : ℝ

/-- Failure outcomes.  `valueError` models the `ValueError` that
`random.sample(range(n), 2)` raises for `n < 2`; `invalidInput` is the
error the specification postulates for malformed input (the source never
produces it — there is no input validation in either engine). -/
inductive SAError where
  | valueError
  | invalidInput

/-- Instrumented outcome of running an annealing loop: the final search
state, the number of loop iterations executed, the sequence of
accept/reject decisions, and the error raised (if any). -/
structure RunResult where
  final : SAState
  steps : ℕ
  trace : List Bool
  err : Option SAError

/-- The body of the `for k in range(max_steps)` loop of
`SimulatedAnnealingTSP.run_optimization` in `Q1b.py`: generate a candidate
by `apply_2opt_move`, score it, apply the Metropolis acceptance criterion
with uniform draw `u`, and update current/best on acceptance.  Returns the
acceptance decision together with the new state. -/
def annealStep (cities : List (ℝ × ℝ)) (temp u : ℝ) (a b : ℕ) (st : SAState) :
    Bool × SAState :=
  let candidate := apply_2opt_move st.current a b
  let candidate_cost := calculate_tour_cost candidate cities
  let delta := candidate_cost - st.current_cost
  if delta < 0 ∨ u < Real.exp (-delta / temp) then
    (true,
      { current := candidate
        current_cost := candidate_cost
        best := if candidate_cost < st.best_cost then candidate else st.best
        best_cost :=
          if candidate_cost < st.best_cost then candidate_cost else st.best_cost })
  else (false, st)

/-- The `for k in range(max_steps)` loop of
`SimulatedAnnealingTSP.run_optimization` in `Q1b.py`, from step index `k`
with `fuel` of the `range` remaining: query the scheduler, `break` when
`temp <= 0.001`, otherwise run `annealStep` on the draws for step `k`.
A `ValueError` from sampling (population `< 2`) aborts the run. -/
def runFrom (cities : List (ℝ × ℝ)) (getTemp : ℕ → ℝ) (mv : ℕ → ℕ × ℕ)
    (ac : ℕ → ℝ) : ℕ → ℕ → SAState → RunResult
  | _, 0, st => ⟨st, 0, [], none⟩
  | k, fuel + 1, st =>
    let temp := getTemp k
    if temp ≤ 0.001 then ⟨st, 0, [], none⟩
    else if st.current.length < 2 then ⟨st, 0, [], some .valueError⟩
    else
      let p := mv k
      let s := annealStep cities temp (ac k) p.1 p.2 st
      let r := runFrom cities getTemp mv ac (k + 1) fuel s.2
      ⟨r.final, r.steps + 1, s.1 :: r.trace, r.err⟩

/-- `SimulatedAnnealingTSP.run_optimization` from `Q1b.py`: start from the
shuffled initial permutation `initPerm` (current = best), then run the
loop for at most `max_steps` steps.  Note there is no validation of
`cities` before the loop. -/
def run_optimization (cities : List (ℝ × ℝ)) (getTemp : ℕ → ℝ)
    (initPerm : List ℕ) (mv : ℕ → ℕ × ℕ) (ac : ℕ → ℝ) (max_steps : ℕ) :
    RunResult :=
  let current_cost := calculate_tour_cost initPerm cities
  runFrom cities getTemp mv ac 0 max_steps
    ⟨initPerm, current_cost, initPerm, current_cost⟩

/-- `total_tour_length` from `Q1_Optimization.py`: accumulate
`dist_matrix[tour[i]][tour[(i + 1) % len(tour)]]` over
`i in range(len(tour))`. -/
def total_tour_length (tour : List ℕ) (dist_matrix : ℕ → ℕ → ℝ) : ℝ :=
  (List.range tour.length).foldl
    (fun length i =>
      length + dist_matrix (tour.getD i 0) (tour.getD ((i + 1) % tour.length) 0)) 0

/-- The neighbour move of `simulated_annealing` in `Q1_Optimization.py`:
`new_tour = list(current_tour); new_tour[i], new_tour[j] = new_tour[j],
new_tour[i]` — a simultaneous swap on a fresh copy, i.e. both writes read
the original list. -/
def apply_swap_move (l : List ℕ) (i j : ℕ) : List ℕ :=
  (l.set i (l.getD j 0)).set j (l.getD i 0)

/-- The body of the `while T > T_min` loop of `simulated_annealing` in
`Q1_Optimization.py`: swap move, score, Metropolis acceptance with uniform
draw `u`, current/best update. -/
def swapStep (dist_matrix : ℕ → ℕ → ℝ) (T u : ℝ) (i j : ℕ) (st : SAState) :
    Bool × SAState :=
  let new_tour := apply_swap_move st.current i j
  let new_cost := total_tour_length new_tour dist_matrix
  let delta := new_cost - st.current_cost
  if delta < 0 ∨ u < Real.exp (-delta / T) then
    (true,
      { current := new_tour
        current_cost := new_cost
        best := if new_cost < st.best_cost then new_tour else st.best
        best_cost := if new_cost < st.best_cost then new_cost else st.best_cost })
  else (false, st)

/-- The `while T > T_min` loop of `simulated_annealing` in
`Q1_Optimization.py` (`T_min = 1.0`, `alpha = 0.99`, `beta = 0.5`), with a
fuel bound on the number of iterations considered (the Python loop is
unbounded; every theorem below quantifies over sufficient fuel).  The
sampling `i, j = random.sample(range(n), 2)` raises `ValueError` when
`n < 2`; the cooling update runs after the step, selected by the
`schedule_type` string exactly as in the source (`else` means linear). -/
def swapRun (n : ℕ) (dist_matrix : ℕ → ℕ → ℝ) (schedule_type : String)
    (mv : ℕ → ℕ × ℕ) (ac : ℕ → ℝ) : ℕ → ℕ → ℝ → SAState → RunResult
  | _, 0, _, st => ⟨st, 0, [], none⟩
  | k, fuel + 1, T, st =>
    if 1.0 < T then
      if n < 2 then ⟨st, 0, [], some .valueError⟩
      else
        let p := mv k
        let s := swapStep dist_matrix T (ac k) p.1 p.2 st
        let T2 := if schedule_type = "exponential" then T * 0.99 else T - 0.5
        let r := swapRun n dist_matrix schedule_type mv ac (k + 1) fuel T2 s.2
        ⟨r.final, r.steps + 1, s.1 :: r.trace, r.err⟩
    else ⟨st, 0, [], none⟩

/-- `simulated_annealing` from `Q1_Optimization.py`: build the Euclidean
distance matrix from the city coordinates, start from the shuffled initial
permutation (current = best) and run the while-loop from `T = 1000.0`. -/
def simulated_annealing (cities : List (ℝ × ℝ)) (schedule_type : String)
    (initPerm : List ℕ) (mv : ℕ → ℕ × ℕ) (ac : ℕ → ℝ) (fuel : ℕ) : RunResult :=
  let n := cities.length
  let dist_matrix := fun i j =>
    get_euclidean_dist (cities.getD i (0, 0)) (cities.getD j (0, 0))
  let current_cost := total_tour_length initPerm dist_matrix
  swapRun n dist_matrix schedule_type mv ac 0 fuel 1000.0
    ⟨initPerm, current_cost, initPerm, current_cost⟩

/-! ### Generic helper lemmas -/

lemma foldl_add_map (f : ℕ → ℝ) :
    ∀ (l : List ℕ) (x : ℝ), l.foldl (fun a i => a + f i) x = x + (l.map f).sum := by
  intro l
  induction l with
  | nil => intro x; simp
  | cons y t ih => intro x; simp [ih, add_assoc]

lemma sum_map_list_range (f : ℕ → ℝ) :
    ∀ n : ℕ, ((List.range n).map f).sum = ∑ i in Finset.range n, f i := by
  intro n
  induction n with
  | zero => simp
  | succ m ih => simp [List.range_succ, Finset.sum_range_succ, ih]

lemma foldl_add_range (f : ℕ → ℝ) (n : ℕ) :
    (List.range n).foldl (fun a i => a + f i) 0 = ∑ i in Finset.range n, f i := by
  rw [foldl_add_map, zero_add, sum_map_list_range]

/-- The loop of `calculate_tour_cost` computes the cyclic wrap-around sum. -/
lemma calculate_tour_cost_eq_sum (route : List ℕ) (cities : List (ℝ × ℝ)) :
    calculate_tour_cost route cities =
      ∑ i in Finset.range route.length,
        get_euclidean_dist (cities.getD (route.getD i 0) (0, 0))
          (cities.getD (route.getD ((i + 1) % route.length) 0) (0, 0)) := by
  unfold calculate_tour_cost
  exact foldl_add_range _ _

/-- The loop of `total_tour_length` computes the cyclic wrap-around sum. -/
lemma total_tour_length_eq_sum (tour : List ℕ) (dist_matrix : ℕ → ℕ → ℝ) :
    total_tour_length tour dist_matrix =
      ∑ i in Finset.range tour.length,
        dist_matrix (tour.getD i 0) (tour.getD ((i + 1) % tour.length) 0) := by
  unfold total_tour_length
  exact foldl_add_range _ _

lemma get_euclidean_dist_comm (p q : ℝ × ℝ) :
    get_euclidean_dist p q = get_euclidean_dist q p := by
  unfold get_euclidean_dist
  ring_nf

/-- The tour cost as a sum over `Fin n`, for any `n` equal to the route
length (stated this way so that rotated/reversed routes share the index
type of the original route). -/
lemma cost_eq_sum_fin (route : List ℕ) (cities : List (ℝ × ℝ)) (n : ℕ)
    (hn : route.length = n) :
    calculate_tour_cost route cities =
      ∑ i : Fin n,
        get_euclidean_dist (cities.getD (route.getD i.val 0) (0, 0))
          (cities.getD (route.getD ((i.val + 1) % n) 0) (0, 0)) := by
  subst hn
  rw [calculate_tour_cost_eq_sum, ← Fin.sum_univ_eq_sum_range]

lemma getD_rotate (l : List ℕ) (r m : ℕ) (hm : m < l.length) :
    (l.rotate r).getD m 0 = l.getD ((m + r) % l.length) 0 := by
  rw [List.getD_eq_getElem _ _ (by rwa [List.length_rotate]),
    List.getElem_rotate, List.getD_eq_getElem]

lemma getD_reverse (l : List ℕ) (m : ℕ) (hm : m < l.length) :
    l.reverse.getD m 0 = l.getD (l.length - 1 - m) 0 := by
  rw [List.getD_eq_getElem _ _ (by simpa using hm), List.getElem_reverse,
    List.getD_eq_getElem]

lemma val_add_natCast (n : ℕ) [NeZero n] (i : Fin n) (r : ℕ) :
    (i + (r : Fin n)).val = (i.val + r) % n := by
  rw [Fin.val_add, Fin.val_natCast, Nat.add_mod_mod]

lemma val_add_one_mod (n : ℕ) [NeZero n] (i : Fin n) :
    (i + 1 : Fin n).val = (i.val + 1) % n := by
  rw [Fin.val_add, Fin.val_one', Nat.add_mod_mod]

lemma rev_succ_val (n : ℕ) [NeZero n] (i : Fin n) :
    ((Fin.rev (i + 1)).val + 1) % n = (Fin.rev i).val := by
  have hn : 0 < n := Nat.pos_of_ne_zero (NeZero.ne n)
  have hi := i.isLt
  rw [Fin.val_rev, Fin.val_rev, val_add_one_mod]
  rcases Nat.lt_or_ge (i.val + 1) n with h | h
  · rw [Nat.mod_eq_of_lt h, Nat.mod_eq_of_lt (by omega)]
    omega
  · have h2 : i.val + 1 = n := by omega
    rw [h2, Nat.mod_self]
    have h3 : n - (0 + 1) + 1 = n := by omega
    rw [h3, Nat.mod_self]
    omega

/-- The cyclic tour cost is invariant under rotating the route. -/
lemma calculate_tour_cost_rotate (route : List ℕ) (cities : List (ℝ × ℝ)) (r : ℕ) :
    calculate_tour_cost (route.rotate r) cities = calculate_tour_cost route cities := by
  rcases Nat.eq_zero_or_pos route.length with h0 | hpos
  · rw [List.eq_nil_of_length_eq_zero h0, List.rotate_nil]
  · haveI : NeZero route.length := ⟨Nat.pos_iff_ne_zero.mp hpos⟩
    rw [cost_eq_sum_fin (route.rotate r) cities route.length (List.length_rotate route r),
      cost_eq_sum_fin route cities route.length rfl]
    refine Fintype.sum_equiv (Equiv.addRight ((r : Fin route.length))) _ _ ?_
    intro i
    have h2 : ((i.val + 1) % route.length + r) % route.length =
        ((i.val + r) % route.length + 1) % route.length := by
      rw [Nat.mod_add_mod, Nat.mod_add_mod]
      congr 1
      omega
    rw [getD_rotate _ _ _ i.isLt, getD_rotate _ _ _ (Nat.mod_lt _ hpos), h2]
    simp only [Equiv.coe_addRight]
    rw [val_add_natCast]

/-- The cyclic tour cost is invariant under reversing the route (using the
symmetry of the Euclidean distance). -/
lemma calculate_tour_cost_reverse (route : List ℕ) (cities : List (ℝ × ℝ)) :
    calculate_tour_cost route.reverse cities = calculate_tour_cost route cities := by
  rcases Nat.eq_zero_or_pos route.length with h0 | hpos
  · rw [List.eq_nil_of_length_eq_zero h0]
    rfl
  · haveI : NeZero route.length := ⟨Nat.pos_iff_ne_zero.mp hpos⟩
    rw [cost_eq_sum_fin route.reverse cities route.length (List.length_reverse route),
      cost_eq_sum_fin route cities route.length rfl]
    refine Fintype.sum_equiv ((Equiv.addRight (1 : Fin route.length)).trans Fin.revPerm)
      _ _ ?_
    intro i
    have hv1 : (Fin.rev (i + 1)).val = route.length - 1 - (i.val + 1) % route.length := by
      rw [Fin.val_rev, val_add_one_mod]
      omega
    have hv2 : ((Fin.rev (i + 1)).val + 1) % route.length = route.length - 1 - i.val := by
      rw [rev_succ_val, Fin.val_rev]
      omega
    rw [getD_reverse _ _ i.isLt, getD_reverse _ _ (Nat.mod_lt _ hpos),
      get_euclidean_dist_comm]
    simp only [Equiv.trans_apply, Equiv.coe_addRight, Fin.revPerm_apply]
    rw [hv2, hv1]

/-! ### Characterisations of the Metropolis step of `Q1b.py` -/

lemma annealStep_fst (cities : List (ℝ × ℝ)) (temp u : ℝ) (a b : ℕ) (st : SAState) :
    (annealStep cities temp u a b st).1 = true ↔
      (calculate_tour_cost (apply_2opt_move st.current a b) cities - st.current_cost < 0 ∨
        u < Real.exp (-(calculate_tour_cost (apply_2opt_move st.current a b) cities -
          st.current_cost) / temp)) := by
  unfold annealStep
  dsimp only
  split
  · next hC => simpa using hC
  · next hC => simpa using hC

lemma annealStep_snd_of_reject (cities : List (ℝ × ℝ)) (temp u : ℝ) (a b : ℕ)
    (st : SAState) (h : (annealStep cities temp u a b st).1 = false) :
    (annealStep cities temp u a b st).2 = st := by
  unfold annealStep at h ⊢
  dsimp only at h ⊢
  split at h
  · simp at h
  · next hC => rw [if_neg hC]

lemma annealStep_best_le (cities : List (ℝ × ℝ)) (temp u : ℝ) (a b : ℕ) (st : SAState) :
    (annealStep cities temp u a b st).2.best_cost ≤ st.best_cost := by
  unfold annealStep
  dsimp only
  split
  · simp only
    split
    · next h => exact le_of_lt h
    · exact le_rfl
  · exact le_rfl

lemma annealStep_best_stable (cities : List (ℝ × ℝ)) (temp u : ℝ) (a b : ℕ) (st : SAState)
    (h : ¬ calculate_tour_cost (apply_2opt_move st.current a b) cities < st.best_cost) :
    (annealStep cities temp u a b st).2.best = st.best ∧
      (annealStep cities temp u a b st).2.best_cost = st.best_cost := by
  unfold annealStep
  dsimp only
  split
  · simp [h]
  · exact ⟨rfl, rfl⟩

/-! ### Characterisations of the Metropolis step of `Q1_Optimization.py` -/

lemma swapStep_fst (dM : ℕ → ℕ → ℝ) (T u : ℝ) (i j : ℕ) (st : SAState) :
    (swapStep dM T u i j st).1 = true ↔
      (total_tour_length (apply_swap_move st.current i j) dM - st.current_cost < 0 ∨
        u < Real.exp (-(total_tour_length (apply_swap_move st.current i j) dM -
          st.current_cost) / T)) := by
  unfold swapStep
  dsimp only
  split
  · next hC => simpa using hC
  · next hC => simpa using hC

lemma swapStep_snd_of_reject (dM : ℕ → ℕ → ℝ) (T u : ℝ) (i j : ℕ) (st : SAState)
    (h : (swapStep dM T u i j st).1 = false) :
    (swapStep dM T u i j st).2 = st := by
  unfold swapStep at h ⊢
  dsimp only at h ⊢
  split at h
  · simp at h
  · next hC => rw [if_neg hC]

lemma swapStep_best_le (dM : ℕ → ℕ → ℝ) (T u : ℝ) (i j : ℕ) (st : SAState) :
    (swapStep dM T u i j st).2.best_cost ≤ st.best_cost := by
  unfold swapStep
  dsimp only
  split
  · simp only
    split
    · next h => exact le_of_lt h
    · exact le_rfl
  · exact le_rfl

lemma swapStep_best_stable (dM : ℕ → ℕ → ℝ) (T u : ℝ) (i j : ℕ) (st : SAState)
    (h : ¬ total_tour_length (apply_swap_move st.current i j) dM < st.best_cost) :
    (swapStep dM T u i j st).2.best = st.best ∧
      (swapStep dM T u i j st).2.best_cost = st.best_cost := by
  unfold swapStep
  dsimp only
  split
  · simp [h]
  · exact ⟨rfl, rfl⟩

/-! ### Loop-level helper lemmas -/

lemma runFrom_best_le (cities : List (ℝ × ℝ)) (getTemp : ℕ → ℝ) (mv : ℕ → ℕ × ℕ)
    (ac : ℕ → ℝ) :
    ∀ (fuel k : ℕ) (st : SAState),
      (runFrom cities getTemp mv ac k fuel st).final.best_cost ≤ st.best_cost := by
  intro fuel
  induction fuel with
  | zero => intro k st; exact le_rfl
  | succ f ih =>
    intro k st
    unfold runFrom
    dsimp only
    split
    · exact le_rfl
    · split
      · exact le_rfl
      · exact le_trans (ih (k + 1) _) (annealStep_best_le ..)

lemma runFrom_steps_le (cities : List (ℝ × ℝ)) (getTemp : ℕ → ℝ) (mv : ℕ → ℕ × ℕ)
    (ac : ℕ → ℝ) :
    ∀ (fuel k : ℕ) (st : SAState),
      (runFrom cities getTemp mv ac k fuel st).steps ≤ fuel := by
  intro fuel
  induction fuel with
  | zero => intro k st; exact le_rfl
  | succ f ih =>
    intro k st
    unfold runFrom
    dsimp only
    split
    · exact Nat.zero_le _
    · split
      · exact Nat.zero_le _
      · exact Nat.succ_le_succ (ih (k + 1) _)

lemma swapRun_best_le (n : ℕ) (dM : ℕ → ℕ → ℝ) (sched : String) (mv : ℕ → ℕ × ℕ)
    (ac : ℕ → ℝ) :
    ∀ (fuel k : ℕ) (T : ℝ) (st : SAState),
      (swapRun n dM sched mv ac k fuel T st).final.best_cost ≤ st.best_cost := by
  intro fuel
  induction fuel with
  | zero => intro k T st; exact le_rfl
  | succ f ih =>
    intro k T st
    unfold swapRun
    dsimp only
    split
    · split
      · exact le_rfl
      · exact le_trans (ih (k + 1) _ _) (swapStep_best_le ..)
    · exact le_rfl

/-! ### Permutation-invariance helper lemmas -/

lemma cons_get_set_perm :
    ∀ (xs : List ℕ) (m x : ℕ), m < xs.length →
      (xs.getD m 0 :: xs.set m x).Perm (x :: xs) := by
  intro xs
  induction xs with
  | nil => intro m x h; simp at h
  | cons y t ih =>
    intro m x h
    cases m with
    | zero =>
      simp only [List.getD_cons_zero, List.set_cons_zero]
      exact List.Perm.swap x y t
    | succ m =>
      simp only [List.getD_cons_succ, List.set_cons_succ]
      have h1 : (t.getD m 0 :: y :: t.set m x).Perm (y :: t.getD m 0 :: t.set m x) :=
        List.Perm.swap y (t.getD m 0) (t.set m x)
      have h2 : (y :: t.getD m 0 :: t.set m x).Perm (y :: x :: t) :=
        (ih m x (by simpa using h)).cons y
      have h3 : (y :: x :: t).Perm (x :: y :: t) := List.Perm.swap x y t
      exact h1.trans (h2.trans h3)

/-- The simultaneous swap `new[i], new[j] = new[j], new[i]` on a copy is a
permutation of the original list. -/
lemma apply_swap_move_perm :
    ∀ (l : List ℕ) (i j : ℕ), i < l.length → j < l.length →
      (apply_swap_move l i j).Perm l := by
  intro l
  induction l with
  | nil => intro i j hi _; simp at hi
  | cons y t ih =>
    intro i j hi hj
    unfold apply_swap_move
    cases i with
    | zero =>
      cases j with
      | zero => simp
      | succ j =>
        simp only [List.getD_cons_zero, List.getD_cons_succ, List.set_cons_zero,
          List.set_cons_succ]
        exact cons_get_set_perm t j y (by simpa using hj)
    | succ i =>
      cases j with
      | zero =>
        simp only [List.getD_cons_zero, List.getD_cons_succ, List.set_cons_zero,
          List.set_cons_succ]
        exact cons_get_set_perm t i y (by simpa using hi)
      | succ j =>
        simp only [List.getD_cons_succ, List.set_cons_succ]
        exact (ih i j (by simpa using hi) (by simpa using hj)).cons y

/-- The 2-opt segment reversal is a permutation of the original route, for
any pair of sampled positions. -/
lemma apply_2opt_move_perm (route : List ℕ) (a b : ℕ) :
    (apply_2opt_move route a b).Perm route := by
  unfold apply_2opt_move
  dsimp only
  have hmm : min a b ≤ max a b := min_le_max
  have hstep : (route.take (min a b) ++
      ((route.drop (min a b)).take (max a b + 1 - min a b)).reverse ++
      route.drop (max a b + 1)).Perm
      (route.take (min a b) ++ (route.drop (min a b)).take (max a b + 1 - min a b)
        ++ route.drop (max a b + 1)) :=
    ((List.reverse_perm _).append_left _).append_right _
  have he : route.take (min a b) ++ (route.drop (min a b)).take (max a b + 1 - min a b)
      ++ route.drop (max a b + 1) = route := by
    rw [List.append_assoc]
    conv_rhs => rw [← List.take_append_drop (min a b) route]
    congr 1
    conv_rhs => rw [← List.take_append_drop (max a b + 1 - min a b) (route.drop (min a b))]
    congr 1
    rw [List.drop_drop]
    congr 1
    omega
  exact hstep.trans (by rw [he])

lemma apply_2opt_move_length (route : List ℕ) (a b : ℕ) :
    (apply_2opt_move route a b).length = route.length := by
  unfold apply_2opt_move
  dsimp only
  simp only [List.length_append, List.length_reverse, List.length_take, List.length_drop]
  have := min_le_max (a := a) (b := b)
  omega

lemma annealStep_current_length (cities : List (ℝ × ℝ)) (temp u : ℝ) (a b : ℕ)
    (st : SAState) :
    (annealStep cities temp u a b st).2.current.length = st.current.length := by
  unfold annealStep
  dsimp only
  split
  · exact apply_2opt_move_length st.current a b
  · rfl

/-! ### Error and termination helper lemmas -/

/-- For a current tour of length at least 2 the `Q1b.py` loop never raises:
the only fallible operation is the sampling of two distinct positions. -/
lemma runFrom_no_error (cities : List (ℝ × ℝ)) (getTemp : ℕ → ℝ) (mv : ℕ → ℕ × ℕ)
    (ac : ℕ → ℝ) :
    ∀ (fuel k : ℕ) (st : SAState), 2 ≤ st.current.length →
      (runFrom cities getTemp mv ac k fuel st).err = none := by
  intro fuel
  induction fuel with
  | zero => intro k st _; rfl
  | succ f ih =>
    intro k st hst
    unfold runFrom
    dsimp only
    split
    · rfl
    · split
      · next h => omega
      · exact ih (k + 1) _ (by rw [annealStep_current_length]; exact hst)

/-- For `n ≥ 2` the `Q1_Optimization.py` loop never raises. -/
lemma swapRun_no_error (n : ℕ) (dM : ℕ → ℕ → ℝ) (sched : String) (mv : ℕ → ℕ × ℕ)
    (ac : ℕ → ℝ) (hn : 2 ≤ n) :
    ∀ (fuel k : ℕ) (T : ℝ) (st : SAState),
      (swapRun n dM sched mv ac k fuel T st).err = none := by
  intro fuel
  induction fuel with
  | zero => intro k T st; rfl
  | succ f ih =>
    intro k T st
    unfold swapRun
    dsimp only
    split
    · split
      · next h => omega
      · exact ih (k + 1) _ _
    · rfl

/-- The linear schedule `T₀ = 500, β = 0.05` is at its floor `0.001`
exactly from step 10000 on. -/
lemma linear_floor_iff (k : ℕ) :
    LinearCooler.get_temp ⟨500, 0.05⟩ k ≤ 0.001 ↔ 10000 ≤ k := by
  unfold LinearCooler.get_temp
  rw [max_le_iff]
  constructor
  · rintro ⟨-, h⟩
    by_contra hk
    push_neg at hk
    have hk9 : (k : ℝ) ≤ 9999 := by exact_mod_cast Nat.lt_succ_iff.mp hk
    nlinarith
  · intro hk
    have hk10 : (10000 : ℝ) ≤ k := by exact_mod_cast hk
    exact ⟨le_rfl, by nlinarith⟩

/-- Running the `Q1b.py` loop under the `LinearCooler ⟨500, 0.05⟩` schedule
from step `k` executes at most `10000 - k` further iterations, because the
temperature-floor test fires from step 10000 on. -/
lemma runFrom_linear_floor_steps (cities : List (ℝ × ℝ)) (mv : ℕ → ℕ × ℕ)
    (ac : ℕ → ℝ) :
    ∀ (fuel k : ℕ) (st : SAState),
      (runFrom cities (LinearCooler.get_temp ⟨500, 0.05⟩) mv ac k fuel st).steps ≤
        10000 - k := by
  intro fuel
  induction fuel with
  | zero => intro k st; exact Nat.zero_le _
  | succ f ih =>
    intro k st
    unfold runFrom
    dsimp only
    split
    · exact Nat.zero_le _
    · next htempgt =>
      split
      · exact Nat.zero_le _
      · dsimp only
        have hk : k < 10000 := by
          by_contra hk2
          push_neg at hk2
          exact htempgt ((linear_floor_iff k).mpr hk2)
        have h2 := ih (k + 1)
          ((annealStep cities (LinearCooler.get_temp ⟨500, 0.05⟩ k) (ac k)
            (mv k).1 (mv k).2 st).2)
        omega

/-- The linear branch of `Q1_Optimization.py` subtracts `0.5` from `T` per
iteration, so starting from `T = 1 + d/2` exactly `d` iterations run. -/
lemma swapRun_linear_steps (n : ℕ) (dM : ℕ → ℕ → ℝ) (mv : ℕ → ℕ × ℕ) (ac : ℕ → ℝ)
    (hn : 2 ≤ n) :
    ∀ (d fuel k : ℕ) (T : ℝ) (st : SAState), d ≤ fuel → T = 1 + (d : ℝ) / 2 →
      (swapRun n dM "linear" mv ac k fuel T st).steps = d := by
  intro d
  induction d with
  | zero =>
    intro fuel k T st _ hT
    cases fuel with
    | zero => rfl
    | succ f =>
      unfold swapRun
      dsimp only
      rw [if_neg (by rw [hT]; norm_num)]
  | succ d ih =>
    intro fuel k T st hfuel hT
    obtain ⟨f, rfl⟩ : ∃ f, fuel = f + 1 := ⟨fuel - 1, by omega⟩
    unfold swapRun
    dsimp only
    rw [if_pos (by
        rw [hT]
        have hd : (0 : ℝ) ≤ d := Nat.cast_nonneg d
        push_cast
        linarith),
      if_neg (by omega : ¬ n < 2)]
    dsimp only
    have hT2 : (if ("linear" : String) = "exponential" then T * 0.99 else T - 0.5) =
        1 + (d : ℝ) / 2 := by
      rw [if_neg (by decide), hT]
      push_cast
      ring
    have hs := ih f (k + 1)
      (if ("linear" : String) = "exponential" then T * 0.99 else T - 0.5)
      ((swapStep dM T (ac k) (mv k).1 (mv k).2 st).2) (by omega) hT2
    omega

/-! ### Claim theorems -/

/-- C1.  Metropolis acceptance, for the step of both annealing loops: with
`delta = cost(candidate) - cost(current)` and temperature `temp > 0`,
a negative `delta` is accepted unconditionally; otherwise the candidate is
accepted iff the uniform draw `u` is below `exp(-delta / temp)`; and a
rejected step leaves the state (current tour and current cost) unchanged. -/
theorem metropolis_acceptance (cities : List (ℝ × ℝ)) (dM : ℕ → ℕ → ℝ)
    (temp u : ℝ) (a b : ℕ) (st : SAState) (htemp : 0 < temp) :
    (calculate_tour_cost (apply_2opt_move st.current a b) cities - st.current_cost < 0 →
      (annealStep cities temp u a b st).1 = true) ∧
    (0 ≤ calculate_tour_cost (apply_2opt_move st.current a b) cities - st.current_cost →
      ((annealStep cities temp u a b st).1 = true ↔
        u < Real.exp (-(calculate_tour_cost (apply_2opt_move st.current a b) cities -
          st.current_cost) / temp))) ∧
    ((annealStep cities temp u a b st).1 = false →
      (annealStep cities temp u a b st).2 = st) ∧
    (total_tour_length (apply_swap_move st.current a b) dM - st.current_cost < 0 →
      (swapStep dM temp u a b st).1 = true) ∧
    (0 ≤ total_tour_length (apply_swap_move st.current a b) dM - st.current_cost →
      ((swapStep dM temp u a b st).1 = true ↔
        u < Real.exp (-(total_tour_length (apply_swap_move st.current a b) dM -
          st.current_cost) / temp))) ∧
    ((swapStep dM temp u a b st).1 = false → (swapStep dM temp u a b st).2 = st) := by
  refine ⟨?_, ?_, annealStep_snd_of_reject cities temp u a b st, ?_, ?_,
    swapStep_snd_of_reject dM temp u a b st⟩
  · intro h
    exact (annealStep_fst ..).mpr (Or.inl h)
  · intro h0
    rw [annealStep_fst]
    constructor
    · intro h
      exact h.resolve_left (not_lt.mpr h0)
    · exact Or.inr
  · intro h
    exact (swapStep_fst ..).mpr (Or.inl h)
  · intro h0
    rw [swapStep_fst]
    constructor
    · intro h
      exact h.resolve_left (not_lt.mpr h0)
    · exact Or.inr

/-- Witness for C1 at a concrete input (temperature 1, empty tour). -/
theorem metropolis_acceptance_witness :
    (0 : ℝ) < 1 ∧
    ((calculate_tour_cost (apply_2opt_move ([] : List ℕ) 0 0) [] - 0 < 0 →
      (annealStep [] 1 1 0 0 ⟨[], 0, [], 0⟩).1 = true) ∧
    (0 ≤ calculate_tour_cost (apply_2opt_move ([] : List ℕ) 0 0) [] - 0 →
      ((annealStep [] 1 1 0 0 ⟨[], 0, [], 0⟩).1 = true ↔
        1 < Real.exp (-(calculate_tour_cost (apply_2opt_move ([] : List ℕ) 0 0) [] -
          0) / 1))) ∧
    ((annealStep [] 1 1 0 0 ⟨[], 0, [], 0⟩).1 = false →
      (annealStep [] 1 1 0 0 ⟨[], 0, [], 0⟩).2 = ⟨[], 0, [], 0⟩) ∧
    (total_tour_length (apply_swap_move ([] : List ℕ) 0 0) (fun _ _ => 0) - 0 < 0 →
      (swapStep (fun _ _ => 0) 1 1 0 0 ⟨[], 0, [], 0⟩).1 = true) ∧
    (0 ≤ total_tour_length (apply_swap_move ([] : List ℕ) 0 0) (fun _ _ => 0) - 0 →
      ((swapStep (fun _ _ => 0) 1 1 0 0 ⟨[], 0, [], 0⟩).1 = true ↔
        1 < Real.exp (-(total_tour_length (apply_swap_move ([] : List ℕ) 0 0)
          (fun _ _ => 0) - 0) / 1))) ∧
    ((swapStep (fun _ _ => 0) 1 1 0 0 ⟨[], 0, [], 0⟩).1 = false →
      (swapStep (fun _ _ => 0) 1 1 0 0 ⟨[], 0, [], 0⟩).2 = ⟨[], 0, [], 0⟩)) :=
  ⟨by norm_num,
    metropolis_acceptance [] (fun _ _ => 0) 1 1 0 0 ⟨[], 0, [], 0⟩ (by norm_num)⟩

/-- C2.  Best-so-far monotonicity: each step of either engine can only
lower `best_cost`; `best` and `best_cost` are untouched unless the newly
accepted cost is strictly below `best_cost` (so a tie never changes
`best`); and over a whole run the final `best_cost` is at most the initial
one. -/
theorem best_monotone (cities : List (ℝ × ℝ)) (dM : ℕ → ℕ → ℝ) (getTemp : ℕ → ℝ)
    (mv : ℕ → ℕ × ℕ) (ac : ℕ → ℝ) (sched : String) (temp u T : ℝ)
    (a b n k fuel : ℕ) (st : SAState) :
    (annealStep cities temp u a b st).2.best_cost ≤ st.best_cost ∧
    (¬ calculate_tour_cost (apply_2opt_move st.current a b) cities < st.best_cost →
      (annealStep cities temp u a b st).2.best = st.best ∧
      (annealStep cities temp u a b st).2.best_cost = st.best_cost) ∧
    (runFrom cities getTemp mv ac k fuel st).final.best_cost ≤ st.best_cost ∧
    (swapStep dM T u a b st).2.best_cost ≤ st.best_cost ∧
    (¬ total_tour_length (apply_swap_move st.current a b) dM < st.best_cost →
      (swapStep dM T u a b st).2.best = st.best ∧
      (swapStep dM T u a b st).2.best_cost = st.best_cost) ∧
    (swapRun n dM sched mv ac k fuel T st).final.best_cost ≤ st.best_cost :=
  ⟨annealStep_best_le .., annealStep_best_stable cities temp u a b st,
    runFrom_best_le cities getTemp mv ac fuel k st, swapStep_best_le ..,
    swapStep_best_stable dM T u a b st, swapRun_best_le n dM sched mv ac fuel k T st⟩

/-- Witness for C2 at a concrete input, with the tie hypotheses of the
inner implications discharged (empty tour, all costs 0). -/
theorem best_monotone_witness :
    (annealStep [] 1 1 0 0 ⟨[], 0, [], 0⟩).2.best_cost ≤ (0 : ℝ) ∧
    (annealStep [] 1 1 0 0 ⟨[], 0, [], 0⟩).2.best = ([] : List ℕ) ∧
    (swapStep (fun _ _ => 0) 1 1 0 0 ⟨[], 0, [], 0⟩).2.best = ([] : List ℕ) ∧
    (runFrom [] (fun _ => 1) (fun _ => (0, 0)) (fun _ => 1) 0 3
      ⟨[], 0, [], 0⟩).final.best_cost ≤ (0 : ℝ) := by
  have h := best_monotone [] (fun _ _ => 0) (fun _ => 1) (fun _ => (0, 0)) (fun _ => 1)
    "linear" 1 1 1 0 0 0 0 3 ⟨[], 0, [], 0⟩
  refine ⟨h.1, (h.2.1 ?_).1, (h.2.2.2.2.1 ?_).1, h.2.2.1⟩
  · show ¬ calculate_tour_cost (apply_2opt_move [] 0 0) [] < 0
    norm_num [calculate_tour_cost, apply_2opt_move]
  · show ¬ total_tour_length (apply_swap_move [] 0 0) (fun _ _ => 0) < 0
    norm_num [total_tour_length, apply_swap_move]

/-- C3.  Tour cost evaluation: both cost functions return the cyclic sum
over `i in [0, n)` of `distance(tour[i], tour[(i+1) mod n])`, including
the wrap-around edge from the last point back to the first. -/
theorem tour_cost_cyclic_sum (tour : List ℕ) (dist_matrix : ℕ → ℕ → ℝ)
    (route : List ℕ) (cities : List (ℝ × ℝ)) :
    total_tour_length tour dist_matrix =
      ∑ i in Finset.range tour.length,
        dist_matrix (tour.getD i 0) (tour.getD ((i + 1) % tour.length) 0) ∧
    calculate_tour_cost route cities =
      ∑ i in Finset.range route.length,
        get_euclidean_dist (cities.getD (route.getD i 0) (0, 0))
          (cities.getD (route.getD ((i + 1) % route.length) 0) (0, 0)) :=
  ⟨total_tour_length_eq_sum tour dist_matrix, calculate_tour_cost_eq_sum route cities⟩

/-- C5.  Both cooling schedules match their closed forms, and for
`T₀ > 0`, `0 < α < 1`, `β > 0` they are non-increasing in the step
index. -/
theorem cooling_schedules (c : ExponentialCooler) (l : LinearCooler)
    (k k1 k2 : ℕ) (hT : 0 < c.t_start) (ha0 : 0 < c.alpha) (ha1 : c.alpha < 1)
    (hb : 0 < l.beta) (hk : k1 < k2) :
    c.get_temp k = c.t_start * c.alpha ^ k ∧
    l.get_temp k = max 0.001 (l.t_start - l.beta * k) ∧
    c.get_temp k2 ≤ c.get_temp k1 ∧
    l.get_temp k2 ≤ l.get_temp k1 := by
  refine ⟨rfl, rfl, ?_, ?_⟩
  · exact mul_le_mul_of_nonneg_left
      (pow_le_pow_of_le_one ha0.le ha1.le hk.le) hT.le
  · unfold LinearCooler.get_temp
    refine max_le_max le_rfl (sub_le_sub_left ?_ _)
    exact mul_le_mul_of_nonneg_left (by exact_mod_cast hk.le) hb.le

/-- Witness for C5 at `T₀ = 2, α = 1/2` and `T₀ = 500, β = 1/20`,
steps `0 < 1`. -/
theorem cooling_schedules_witness :
    (0 : ℝ) < 2 ∧ (0 : ℝ) < 1 / 2 ∧ (1 / 2 : ℝ) < 1 ∧ (0 : ℝ) < 1 / 20 ∧ 0 < 1 ∧
    (ExponentialCooler.get_temp ⟨2, 1 / 2⟩ 0 = 2 * (1 / 2 : ℝ) ^ 0 ∧
    LinearCooler.get_temp ⟨500, 1 / 20⟩ 0 = max 0.001 (500 - (1 / 20 : ℝ) * 0) ∧
    ExponentialCooler.get_temp ⟨2, 1 / 2⟩ 1 ≤ ExponentialCooler.get_temp ⟨2, 1 / 2⟩ 0 ∧
    LinearCooler.get_temp ⟨500, 1 / 20⟩ 1 ≤ LinearCooler.get_temp ⟨500, 1 / 20⟩ 0) := by
  refine ⟨by norm_num, by norm_num, by norm_num, by norm_num, by norm_num, ?_⟩
  have h := cooling_schedules ⟨2, 1 / 2⟩ ⟨500, 1 / 20⟩ 0 0 1
    (by norm_num) (by norm_num) (by norm_num) (by norm_num) (by norm_num)
  exact_mod_cast h

/-- C9.  Determinism given the randomness source: two runs of either
engine with the same input and pointwise-equal streams of random draws
return identical results, including the sequence of accept/reject
decisions (`trace`) and the best tour and cost (`final`). -/
theorem run_deterministic (cities : List (ℝ × ℝ)) (getTemp : ℕ → ℝ)
    (mv1 mv2 : ℕ → ℕ × ℕ) (ac1 ac2 : ℕ → ℝ) (initPerm : List ℕ)
    (max_steps n fuel : ℕ) (dM : ℕ → ℕ → ℝ) (sched : String)
    (hmv : ∀ i, mv1 i = mv2 i) (hac : ∀ i, ac1 i = ac2 i) :
    run_optimization cities getTemp initPerm mv1 ac1 max_steps =
      run_optimization cities getTemp initPerm mv2 ac2 max_steps ∧
    simulated_annealing cities sched initPerm mv1 ac1 fuel =
      simulated_annealing cities sched initPerm mv2 ac2 fuel := by
  have h1 : mv1 = mv2 := funext hmv
  have h2 : ac1 = ac2 := funext hac
  rw [h1, h2]
  exact ⟨rfl, rfl⟩

/-- Witness for C9 on concrete equal streams. -/
theorem run_deterministic_witness :
    run_optimization [] (fun _ => 1) [] (fun _ => (0, 0)) (fun _ => 1) 2 =
      run_optimization [] (fun _ => 1) [] (fun _ => (0, 0)) (fun _ => 1) 2 ∧
    simulated_annealing [] "linear" [] (fun _ => (0, 0)) (fun _ => 1) 2 =
      simulated_annealing [] "linear" [] (fun _ => (0, 0)) (fun _ => 1) 2 :=
  run_deterministic [] (fun _ => 1) (fun _ => (0, 0)) (fun _ => (0, 0))
    (fun _ => 1) (fun _ => 1) [] 2 0 2 (fun _ _ => 0) "linear"
    (fun _ => rfl) (fun _ => rfl)

/-- C8.  The wrap-around tour cost is invariant under cyclic rotation of
the route and under full reversal of the route (both represent the same
physical cycle; reversal uses the symmetry of the Euclidean distance). -/
theorem tour_cost_symmetry (route : List ℕ) (cities : List (ℝ × ℝ)) (r : ℕ) :
    calculate_tour_cost (route.rotate r) cities = calculate_tour_cost route cities ∧
    calculate_tour_cost route.reverse cities = calculate_tour_cost route cities :=
  ⟨calculate_tour_cost_rotate route cities r, calculate_tour_cost_reverse route cities⟩

/-- C4.  Both neighbourhood operators map a tour that is a permutation of
`{0, …, n-1}` to a tour that is again a permutation of `{0, …, n-1}` (the
operators work on a fresh copy, so in this embedding they are pure
functions of the input route, which is returned unchanged by value). -/
theorem neighborhood_ops_preserve_permutation (route : List ℕ) (n a b i j : ℕ)
    (hroute : route.Perm (List.range n)) (hn : 2 ≤ n)
    (hi : i < route.length) (hj : j < route.length) :
    (apply_2opt_move route a b).Perm (List.range n) ∧
    (apply_swap_move route i j).Perm (List.range n) :=
  ⟨(apply_2opt_move_perm route a b).trans hroute,
    (apply_swap_move_perm route i j hi hj).trans hroute⟩

/-- Witness for C4 on the tour `[1, 0]` over `{0, 1}`. -/
theorem neighborhood_ops_witness :
    [1, 0].Perm (List.range 2) ∧ 2 ≤ 2 ∧ 0 < List.length [1, 0] ∧
    1 < List.length [1, 0] ∧
    ((apply_2opt_move [1, 0] 0 1).Perm (List.range 2) ∧
      (apply_swap_move [1, 0] 0 1).Perm (List.range 2)) :=
  ⟨by decide, by decide, by decide, by decide,
    neighborhood_ops_preserve_permutation [1, 0] 2 0 1 0 1 (by decide) (by decide)
      (by decide) (by decide)⟩

/-- C6.  With `T₀ = 500, β = 0.05` the linear schedule is at its floor
`0.001` exactly from step `⌈(500 − 0.001)/0.05⌉ = 10000` on, and for every
input the `Q1b.py` engine run under that schedule executes at most 10000
loop iterations (the temperature-floor test or the `max_steps` bound stops
it). -/
theorem linear_schedule_terminates :
    (∀ k : ℕ, LinearCooler.get_temp ⟨500, 0.05⟩ k ≤ 0.001 ↔ 10000 ≤ k) ∧
    ⌈((500 : ℝ) - 0.001) / 0.05⌉₊ = 10000 ∧
    ∀ (cities : List (ℝ × ℝ)) (initPerm : List ℕ) (mv : ℕ → ℕ × ℕ) (ac : ℕ → ℝ)
      (max_steps : ℕ),
      (run_optimization cities (LinearCooler.get_temp ⟨500, 0.05⟩) initPerm mv ac
        max_steps).steps ≤ 10000 := by
  refine ⟨linear_floor_iff, ?_, ?_⟩
  · rw [Nat.ceil_eq_iff (by norm_num)]
    norm_num
  · intro cities initPerm mv ac ms
    have h := runFrom_linear_floor_steps cities mv ac ms 0
      ⟨initPerm, calculate_tour_cost initPerm cities, initPerm,
        calculate_tour_cost initPerm cities⟩
    simpa [run_optimization] using h

/-- C7, amended.  The code performs no input validation: for a well-formed
input (at least two points, initial permutation of the point indices) no
error is raised anywhere, and for a malformed input (fewer than two
points) the engine does not fail before the loop — if at least one
iteration runs, the sampling inside the first loop iteration raises
`ValueError` (never `InvalidInput`).  The `Q1_Optimization.py` engine
likewise raises nothing for `n ≥ 2`. -/
theorem input_validation_amended (cities : List (ℝ × ℝ)) (getTemp : ℕ → ℝ)
    (initPerm : List ℕ) (mv : ℕ → ℕ × ℕ) (ac : ℕ → ℝ) (max_steps : ℕ)
    (sched : String) (fuel : ℕ) :
    (2 ≤ cities.length → initPerm.Perm (List.range cities.length) →
      (run_optimization cities getTemp initPerm mv ac max_steps).err = none) ∧
    (2 ≤ cities.length →
      (simulated_annealing cities sched initPerm mv ac fuel).err = none) ∧
    (cities.length < 2 → initPerm.Perm (List.range cities.length) →
      1 ≤ max_steps → ¬ getTemp 0 ≤ 0.001 →
      (run_optimization cities getTemp initPerm mv ac max_steps).err =
        some SAError.valueError) := by
  refine ⟨?_, ?_, ?_⟩
  · intro h2 hperm
    unfold run_optimization
    dsimp only
    refine runFrom_no_error cities getTemp mv ac max_steps 0 _ ?_
    show 2 ≤ initPerm.length
    have hlen : initPerm.length = cities.length := by simpa using hperm.length_eq
    omega
  · intro h2
    unfold simulated_annealing
    dsimp only
    exact swapRun_no_error cities.length _ sched mv ac h2 fuel 0 _ _
  · intro h2 hperm hms htemp
    obtain ⟨m, rfl⟩ : ∃ m, max_steps = m + 1 := ⟨max_steps - 1, by omega⟩
    have hlen : initPerm.length = cities.length := by simpa using hperm.length_eq
    unfold run_optimization runFrom
    dsimp only
    rw [if_neg htemp, if_pos (by omega : initPerm.length < 2)]

/-- Witness for C7 (amended): a two-point run raises nothing; a one-point
run with one step raises `ValueError` from inside the loop. -/
theorem input_validation_witness :
    (run_optimization [((0 : ℝ), (0 : ℝ)), ((0 : ℝ), (1 : ℝ))] (fun _ => 500) [1, 0]
      (fun _ => (0, 1)) (fun _ => 1) 1).err = none ∧
    (simulated_annealing [((0 : ℝ), (0 : ℝ)), ((0 : ℝ), (1 : ℝ))] "linear" [1, 0]
      (fun _ => (0, 1)) (fun _ => 1) 1).err = none ∧
    (run_optimization [((0 : ℝ), (0 : ℝ))] (fun _ => 500) [0]
      (fun _ => (0, 1)) (fun _ => 1) 1).err = some SAError.valueError := by
  have h := input_validation_amended [((0 : ℝ), (0 : ℝ)), ((0 : ℝ), (1 : ℝ))]
    (fun _ => 500) [1, 0] (fun _ => (0, 1)) (fun _ => 1) 1 "linear" 1
  have h2 := input_validation_amended [((0 : ℝ), (0 : ℝ))]
    (fun _ => 500) [0] (fun _ => (0, 1)) (fun _ => 1) 1 "linear" 1
  exact ⟨h.1 (by decide) (by decide), h.2.1 (by decide),
    h2.2.2 (by decide) (by decide) (by decide) (by norm_num)⟩

/-- C7, counterexample to the claim as stated: the input `[(0, 0)]` is
malformed (fewer than two points), yet with `max_steps = 0` the engine
returns normally — no `InvalidInput` failure happens before the loop —
and with the default `max_steps = 10000` the failure that does occur is
the sampling `ValueError` inside the first loop iteration, not a
pre-loop `InvalidInput`. -/
theorem no_prevalidation_cex :
    (run_optimization [((0 : ℝ), (0 : ℝ))] (LinearCooler.get_temp ⟨500, 0.05⟩) [0]
      (fun _ => (0, 1)) (fun _ => 1) 0).err = none ∧
    (run_optimization [((0 : ℝ), (0 : ℝ))] (LinearCooler.get_temp ⟨500, 0.05⟩) [0]
      (fun _ => (0, 1)) (fun _ => 1) 10000).err = some SAError.valueError := by
  constructor
  · rfl
  · unfold run_optimization runFrom
    dsimp only
    rw [if_neg (by rw [linear_floor_iff]; omega :
          ¬ LinearCooler.get_temp ⟨500, 0.05⟩ 0 ≤ 0.001),
      if_pos (by decide : List.length [(0 : ℕ)] < 2)]

/-- C10.  The swap-based engine of `Q1_Optimization.py` with the linear
schedule starts at `T = 1000.0`, subtracts `β = 0.5` per iteration and
loops while `T > 1.0`, so for any city set with at least two cities it
executes exactly 1998 iterations, whatever the cities and the random
draws (any fuel bound of at least 1998 is never reached). -/
theorem linear_swap_fixed_iterations (cities : List (ℝ × ℝ)) (initPerm : List ℕ)
    (mv : ℕ → ℕ × ℕ) (ac : ℕ → ℝ) (fuel : ℕ) (hn : 2 ≤ cities.length)
    (hfuel : 1998 ≤ fuel) :
    (simulated_annealing cities "linear" initPerm mv ac fuel).steps = 1998 := by
  unfold simulated_annealing
  dsimp only
  exact swapRun_linear_steps cities.length _ mv ac hn 1998 fuel 0 1000.0 _ hfuel
    (by norm_num)

/-- Witness for C10: two unit-separated cities, fuel exactly 1998. -/
theorem linear_swap_fixed_iterations_witness :
    2 ≤ List.length [((0 : ℝ), (0 : ℝ)), ((0 : ℝ), (1 : ℝ))] ∧ 1998 ≤ 1998 ∧
    (simulated_annealing [((0 : ℝ), (0 : ℝ)), ((0 : ℝ), (1 : ℝ))] "linear" [0, 1]
      (fun _ => (0, 1)) (fun _ => 1) 1998).steps = 1998 :=
  ⟨by decide, by decide,
    linear_swap_fixed_iterations [((0 : ℝ), (0 : ℝ)), ((0 : ℝ), (1 : ℝ))] [0, 1]
      (fun _ => (0, 1)) (fun _ => 1) 1998 (by decide) (by decide)⟩

end
